import Mathlib

/-!
# Verification of the vinyl-scrobbler core

Shallow embedding of the functional core of the `vinyl-scrobbler` repository:
the duration parser, the timestamp scheduler (both the last-track-anchored
variant of `src/unnamed/part_001` and the first-track-anchored variant of
`src/unnamed/part_000`), the submission orchestrator's per-track control flow,
and the Last.fm request signer of `src/last-fm.auth.js`.

JavaScript numbers appearing here are exact integers, modelled as `Int`;
`NaN` is modelled as `none` in `Option Int` where it can arise. String
primitives are modelled on `List Char` so that every definition reduces by
structural recursion.
-/

namespace VinylScrobbler

/-- Value of a list of decimal digit characters, most significant first. -/
def digitsVal (l : List Char) : Nat :=
  l.foldl (fun n c => n * 10 + (c.toNat - '0'.toNat)) 0

/-- Reads a nonempty all-digit character list as a natural number; any other
list yields `none`. -/
def decDigits? (l : List Char) : Option Nat :=
  if l ≠ [] ∧ l.all Char.isDigit then some (digitsVal l) else none

/-- JavaScript's `String.prototype.split` with a single-character separator:
splits at every occurrence, keeping empty pieces, and maps the empty string to
`[""]`. -/
def jsSplitAux (c : Char) : List Char → List Char → List String
  | [], acc => [String.mk acc.reverse]
  | x :: xs, acc =>
    if x = c then String.mk acc.reverse :: jsSplitAux c xs []
    else jsSplitAux c xs (x :: acc)

/-- JavaScript `s.split(c)` for a one-character separator `c`. -/
def jsSplit (s : String) (c : Char) : List String :=
  jsSplitAux c s.toList []

/-- JavaScript's `Number(string)` coercion as applied to duration segments,
restricted to optionally signed decimal integer literals: the empty string
coerces to `0`, a (signed) run of decimal digits to its value, and any other
text to `NaN`, modelled as `none`. Fractional and exponent literals are outside
the integer model and also map to `none`. -/
def jsToNumber (s : String) : Option Int :=
  match s.toList with
  | [] => some 0
  | c :: rest =>
    if c = '-' then (decDigits? rest).map (fun n => -(n : Int))
    else (decDigits? (c :: rest)).map (fun n => (n : Int))

/-- JavaScript's `parseInt(string)`: parses an optionally signed leading run of
decimal digits and yields `NaN` (modelled as `none`) when no digits are
present. -/
def jsParseInt (s : String) : Option Int :=
  match s.toList with
  | [] => none
  | c :: rest =>
    if c = '-' then (decDigits? (rest.takeWhile Char.isDigit)).map (fun n => -(n : Int))
    else (decDigits? ((c :: rest).takeWhile Char.isDigit)).map (fun n => (n : Int))

/-- JavaScript `v || d` on a number `v` that is never `NaN`: `0` is falsy and
is replaced by the default. -/
def jsOrDefault (v d : Int) : Int := if v = 0 then d else v

/-- `DEFAULT_TRACK_DURATION` from `src/unnamed/part_001` line 19 (3 minutes). -/
def DEFAULT_TRACK_DURATION : Int := 180

/-- `MIN_SCROBBLE_DURATION` from `src/unnamed/part_001` line 20 (Last.fm
minimum listen length). -/
def MIN_SCROBBLE_DURATION : Int := 30

/-- A Discogs tracklist entry as consumed by the scrobblers: a title and a raw
duration string. `none` models an absent (`undefined`) duration; the empty
string is equally falsy in the source. -/
structure Track where
  title : String
  duration : Option String
  deriving DecidableEq, Repr

/-- Translation of `parseDuration` (`src/unnamed/part_001` lines 56-65):
falsy input gives the default; otherwise the string is split on `:`, each
segment is coerced with `Number`, `NaN` segments are filtered out, and only a
remainder of exactly three (`HH:MM:SS`) or exactly two (`MM:SS`) numeric
segments is summed with positional weights — anything else gives the
default. -/
def parseDuration (duration : Option String) : Int :=
  match duration with
  | none => DEFAULT_TRACK_DURATION
  | some s =>
    if s = "" then DEFAULT_TRACK_DURATION
    else
      match (jsSplit s ':').filterMap jsToNumber with
      | [h, m, sec] => h * 3600 + m * 60 + sec
      | [m, sec] => m * 60 + sec
      | _ => DEFAULT_TRACK_DURATION

/-- Translation of the inline duration normalization in `scrobble`
(`src/unnamed/part_000` lines 82-99): `parseInt` per segment with no `NaN`
filtering, so a failing segment inside a two- or three-part duration
propagates `NaN` (`none`) into the computed seconds; only a segment count
other than 2 or 3 falls back to the default. -/
def parseDurationV0 (duration : Option String) : Option Int :=
  match duration with
  | none => some DEFAULT_TRACK_DURATION
  | some s =>
    if s = "" then some DEFAULT_TRACK_DURATION
    else
      match (jsSplit s ':').map jsParseInt with
      | [h, m, sec] =>
        match h, m, sec with
        | some a, some b, some c => some (a * 3600 + b * 60 + c)
        | _, _, _ => none
      | [m, sec] =>
        match m, sec with
        | some b, some c => some (b * 60 + c)
        | _, _ => none
      | _ => some DEFAULT_TRACK_DURATION

/-- Observable effects of the `part_001` orchestrator loop, one constructor
per externally visible action on a track index: the network submission
attempt, the progress display after a successful attempt, and the error report
(carrying the track title) after a failed one. -/
inductive ScrobbleEvent
  | submitted (index : Nat) (timestamp duration : Int)
  | progressed (index : Nat)
  | failed (index : Nat) (title : String)
  deriving DecidableEq, Repr

/-- Translation of the `totalDuration` computation of `scrobble`
(`src/unnamed/part_001` lines 222-224): the raw parsed durations are summed,
with a falsy (zero) parse replaced by the default; no 30-second floor is
applied here. -/
def totalDuration (tracks : List Track) : Int :=
  tracks.foldl
    (fun sum track => sum + jsOrDefault (parseDuration track.duration) DEFAULT_TRACK_DURATION) 0

/-- Translation of the per-track loop of `scrobble` (`src/unnamed/part_001`
lines 226-266). `net i` tells whether the network POST for track `i` succeeds;
`i` is the loop index and `cum` the running `cumulativeTime`. The first
component collects the `(duration, timestamp)` pair computed at the top of
each iteration (lines 227-228); the second collects the emitted events: in
dry-run mode the loop skips straight to the cumulative update, otherwise the
POST is attempted and either progress is shown or the failure is reported with
the track's title, after which the cumulative update runs regardless. -/
def scrobbleAux (net : Nat → Bool) (dryRun : Bool) (now total : Int) :
    Nat → Int → List Track → List (Int × Int) × List ScrobbleEvent
  | _, _, [] => ([], [])
  | i, cum, t :: ts =>
    let duration := max (parseDuration t.duration) MIN_SCROBBLE_DURATION
    let timestamp := now - (total - cum)
    let rest := scrobbleAux net dryRun now total (i + 1) (cum + duration) ts
    if dryRun then
      ((duration, timestamp) :: rest.1, rest.2)
    else
      let evs :=
        if net i then
          [ScrobbleEvent.submitted i timestamp duration, ScrobbleEvent.progressed i]
        else
          [ScrobbleEvent.submitted i timestamp duration, ScrobbleEvent.failed i t.title]
      ((duration, timestamp) :: rest.1, evs ++ rest.2)

/-- One full `scrobble` call (`src/unnamed/part_001` lines 217-267): the total
duration is computed up front, then the loop starts at index 0 with
`cumulativeTime = 0`. -/
def scrobbleRun (net : Nat → Bool) (dryRun : Bool) (tracks : List Track) (now : Int) :
    List (Int × Int) × List ScrobbleEvent :=
  scrobbleAux net dryRun now (totalDuration tracks) 0 0 tracks

/-- The timestamp sequence a run assigns to the tracks, in track order. -/
def schedule (tracks : List Track) (now : Int) : List Int :=
  ((scrobbleRun (fun _ => true) false tracks now).1).map Prod.snd

/-- The duration the loop actually uses for a track: the parsed duration
floored at the Last.fm 30-second minimum (`src/unnamed/part_001` line 227). -/
def flooredDuration (t : Track) : Int :=
  max (parseDuration t.duration) MIN_SCROBBLE_DURATION

/-- Sum of the floored durations of a track list; the value of
`cumulativeTime` after processing exactly these tracks. -/
def cumFloored (l : List Track) : Int :=
  (l.map flooredDuration).sum

/-- A single track's contribution to `totalDuration`. -/
def perTrackTotal (t : Track) : Int :=
  jsOrDefault (parseDuration t.duration) DEFAULT_TRACK_DURATION

/-- Schedule as claim C1 words it: `total` is the sum of the 30-second-floored
durations and `cumulative` accumulates those same floored durations. -/
def scheduleClaimedAux (now total : Int) : Int → List Track → List Int
  | _, [] => []
  | cum, t :: ts =>
    (now - (total - cum)) :: scheduleClaimedAux now total (cum + flooredDuration t) ts

/-- Full claimed schedule of claim C1 (total floored up front). -/
def scheduleClaimed (tracks : List Track) (now : Int) : List Int :=
  scheduleClaimedAux now (cumFloored tracks) 0 tracks

lemma foldl_add_map (f : Track → Int) :
    ∀ (l : List Track) (init : Int),
      List.foldl (fun acc t => acc + f t) init l = init + (l.map f).sum := by
  intro l
  induction l with
  | nil => intro init; simp
  | cons t ts ih =>
    intro init
    simp only [List.foldl_cons, List.map_cons, List.sum_cons, ih]
    ring

lemma totalDuration_eq_sum (tracks : List Track) :
    totalDuration tracks = (tracks.map perTrackTotal).sum := by
  have h := foldl_add_map perTrackTotal tracks 0
  simpa [totalDuration, perTrackTotal] using h

/-- Pure characterization of the first component of the loop: the
`(duration, timestamp)` pairs in track order. -/
def schedPairs (now total : Int) : Int → List Track → List (Int × Int)
  | _, [] => []
  | cum, t :: ts =>
    (flooredDuration t, now - (total - cum)) :: schedPairs now total (cum + flooredDuration t) ts

lemma scrobbleAux_fst (net : Nat → Bool) (dry : Bool) (now total : Int) :
    ∀ (l : List Track) (i : Nat) (cum : Int),
      (scrobbleAux net dry now total i cum l).1 = schedPairs now total cum l := by
  intro l
  induction l with
  | nil => intro i cum; cases dry <;> simp [scrobbleAux, schedPairs]
  | cons t ts ih =>
    intro i cum
    cases dry <;> simp [scrobbleAux, schedPairs, flooredDuration, ih]

lemma schedPairs_length (now total : Int) :
    ∀ (l : List Track) (cum : Int), (schedPairs now total cum l).length = l.length := by
  intro l
  induction l with
  | nil => intro cum; simp [schedPairs]
  | cons t ts ih => intro cum; simp [schedPairs, ih]

lemma cumFloored_nil : cumFloored [] = 0 := by simp [cumFloored]

lemma cumFloored_cons (t : Track) (l : List Track) :
    cumFloored (t :: l) = flooredDuration t + cumFloored l := by
  simp [cumFloored]

lemma schedPairs_get (now total : Int) :
    ∀ (l : List Track) (cum : Int) (i : Nat) (h : i < l.length)
      (h2 : i < (schedPairs now total cum l).length),
      (schedPairs now total cum l).get ⟨i, h2⟩ =
        (flooredDuration (l.get ⟨i, h⟩), now - (total - (cum + cumFloored (l.take i)))) := by
  intro l
  induction l with
  | nil => intro cum i h; exact absurd h (by simp)
  | cons t ts ih =>
    intro cum i h h2
    cases i with
    | zero => simp [schedPairs, cumFloored]
    | succ j =>
      have hj : j < ts.length := by simpa using h
      have hj2 : j < (schedPairs now total (cum + flooredDuration t) ts).length := by
        rw [schedPairs_length]; exact hj
      simp only [schedPairs, List.get_cons_succ, List.take_succ_cons, cumFloored_cons,
        ih (cum + flooredDuration t) j hj hj2]
      ring_nf

lemma schedule_eq_map_snd (tracks : List Track) (now : Int) :
    schedule tracks now = (schedPairs now (totalDuration tracks) 0 tracks).map Prod.snd := by
  simp [schedule, scrobbleRun, scrobbleAux_fst]

lemma schedule_length (tracks : List Track) (now : Int) :
    (schedule tracks now).length = tracks.length := by
  rw [schedule_eq_map_snd, List.length_map, schedPairs_length]

lemma schedule_get (tracks : List Track) (now : Int) (i : Nat) (h : i < tracks.length)
    (h2 : i < (schedule tracks now).length) :
    (schedule tracks now).get ⟨i, h2⟩ =
      now - (totalDuration tracks - cumFloored (tracks.take i)) := by
  have h3 : i < (schedPairs now (totalDuration tracks) 0 tracks).length := by
    rw [schedPairs_length]; exact h
  have h4 := schedPairs_get now (totalDuration tracks) tracks 0 i h h3
  have h5 : (schedule tracks now).get ⟨i, h2⟩ =
      ((schedPairs now (totalDuration tracks) 0 tracks).get ⟨i, h3⟩).2 := by
    simp [schedule_eq_map_snd, List.get_eq_getElem, List.getElem_map]
  rw [h5, h4]
  simp

lemma cumFloored_take_succ (l : List Track) (i : Nat) (h : i < l.length) :
    cumFloored (l.take (i + 1)) = cumFloored (l.take i) + flooredDuration (l.get ⟨i, h⟩) := by
  induction l generalizing i with
  | nil => exact absurd h (by simp)
  | cons t ts ih =>
    cases i with
    | zero => simp [cumFloored]
    | succ j =>
      have hj : j < ts.length := by simpa using h
      simp only [List.take_succ_cons, cumFloored_cons, List.get_cons_succ, ih j hj]
      ring

lemma min_le_flooredDuration (t : Track) : MIN_SCROBBLE_DURATION ≤ flooredDuration t :=
  le_max_right _ _

lemma schedule_chain (tracks : List Track) (now : Int) :
    List.Chain' (· < ·) (schedule tracks now) := by
  rw [List.chain'_iff_get]
  intro i hi
  have hlen := schedule_length tracks now
  have hti : i < tracks.length := by omega
  have hti1 : i + 1 < tracks.length := by omega
  rw [schedule_get tracks now i hti (by omega), schedule_get tracks now (i + 1) hti1 (by omega)]
  have hstep := cumFloored_take_succ tracks i hti
  have hmin := min_le_flooredDuration (tracks.get ⟨i, hti⟩)
  simp only [MIN_SCROBBLE_DURATION] at hmin
  omega

lemma floored_le_perTrackTotal (t : Track)
    (h : parseDuration t.duration = 0 ∨ MIN_SCROBBLE_DURATION ≤ parseDuration t.duration) :
    flooredDuration t ≤ perTrackTotal t := by
  rcases h with h0 | h30
  · simp only [flooredDuration, perTrackTotal, jsOrDefault, h0, if_pos rfl,
      DEFAULT_TRACK_DURATION, MIN_SCROBBLE_DURATION]
    norm_num
  · have hne : parseDuration t.duration ≠ 0 := by
      simp only [MIN_SCROBBLE_DURATION] at h30; omega
    simp only [flooredDuration, perTrackTotal, jsOrDefault, if_neg hne]
    exact max_le le_rfl (by simp only [MIN_SCROBBLE_DURATION] at h30 ⊢; omega)

lemma perTrackTotal_nonneg (t : Track)
    (h : parseDuration t.duration = 0 ∨ MIN_SCROBBLE_DURATION ≤ parseDuration t.duration) :
    0 ≤ perTrackTotal t := by
  rcases h with h0 | h30
  · simp [perTrackTotal, jsOrDefault, h0, DEFAULT_TRACK_DURATION]
  · have hne : parseDuration t.duration ≠ 0 := by
      simp only [MIN_SCROBBLE_DURATION] at h30; omega
    simp only [perTrackTotal, jsOrDefault, if_neg hne]
    simp only [MIN_SCROBBLE_DURATION] at h30; omega

lemma cumFloored_take_le_total (tracks : List Track) (i : Nat)
    (h : ∀ t ∈ tracks,
      parseDuration t.duration = 0 ∨ MIN_SCROBBLE_DURATION ≤ parseDuration t.duration) :
    cumFloored (tracks.take i) ≤ totalDuration tracks := by
  rw [totalDuration_eq_sum]
  calc cumFloored (tracks.take i)
      ≤ ((tracks.take i).map perTrackTotal).sum := by
        apply List.sum_le_sum
        intro t ht
        exact floored_le_perTrackTotal t (h t (List.take_subset i tracks ht))
    _ ≤ (tracks.map perTrackTotal).sum := by
        apply List.Sublist.sum_le_sum ((List.take_sublist i tracks).map perTrackTotal)
        intro x hx
        rcases List.mem_map.mp hx with ⟨t, ht, rfl⟩
        exact perTrackTotal_nonneg t (h t ht)

lemma cumFloored_append (l₁ l₂ : List Track) :
    cumFloored (l₁ ++ l₂) = cumFloored l₁ + cumFloored l₂ := by
  simp [cumFloored]

lemma totalDuration_eq_cumFloored (tracks : List Track)
    (h : ∀ t ∈ tracks, MIN_SCROBBLE_DURATION ≤ parseDuration t.duration) :
    totalDuration tracks = cumFloored tracks := by
  rw [totalDuration_eq_sum, cumFloored]
  congr 1
  apply List.map_congr_left
  intro t ht
  have h30 := h t ht
  simp only [MIN_SCROBBLE_DURATION] at h30
  have hne : parseDuration t.duration ≠ 0 := by omega
  simp only [perTrackTotal, flooredDuration, jsOrDefault, if_neg hne, MIN_SCROBBLE_DURATION]
  omega

end VinylScrobbler

namespace VinylScrobbler

/-- C1: the code computes `totalDuration` from the raw parsed durations
(`parseDuration(track.duration) || DEFAULT`), without the 30-second floor the
claim describes; with two `"0:01"` tracks the floored total would be 60 but
the code's total is 2, so the claimed and actual timestamp sequences
disagree. -/
theorem C1_total_not_floored_cex :
    schedule [⟨"A", some "0:01"⟩, ⟨"B", some "0:01"⟩] 1000 = [998, 1028] ∧
    scheduleClaimed [⟨"A", some "0:01"⟩, ⟨"B", some "0:01"⟩] 1000 = [940, 970] ∧
    schedule [⟨"A", some "0:01"⟩, ⟨"B", some "0:01"⟩] 1000 ≠
      scheduleClaimed [⟨"A", some "0:01"⟩, ⟨"B", some "0:01"⟩] 1000 := by
  decide

/-- C1 (amended): `schedule` computes `total` as the sum of the raw parsed
durations with a zero parse replaced by the 180-second default (no 30-second
floor on the total); with `cumulative` starting at 0, `timestamp[i] = now -
(total - cumulative)` and afterwards the 30-second-floored `duration[i]` is
added to `cumulative`; in particular, for raw durations `[absent, "4:00"]` and
`now = 10000` the timestamps are `[9580, 9760]`. -/
theorem C1_schedule_timestamps (tracks : List Track) (now : Int) :
    (schedule tracks now).length = tracks.length ∧
    (∀ (i : Nat) (hi : i < tracks.length) (hs : i < (schedule tracks now).length),
      (schedule tracks now).get ⟨i, hs⟩ =
        now - (totalDuration tracks - cumFloored (tracks.take i))) ∧
    schedule [⟨"I", none⟩, ⟨"II", some "4:00"⟩] 10000 = [9580, 9760] := by
  exact ⟨schedule_length tracks now,
    fun i hi hs => schedule_get tracks now i hi hs, by decide⟩

/-- Witness for C1 at the spec's end-to-end example: the second track of
`[absent, "4:00"]` at `now = 10000`. -/
theorem C1_schedule_timestamps_witness :
    (schedule [⟨"I", none⟩, ⟨"II", some "4:00"⟩] 10000).get ⟨1, by decide⟩ =
      10000 - (totalDuration [⟨"I", none⟩, ⟨"II", some "4:00"⟩] -
        cumFloored ([(⟨"I", none⟩ : Track), ⟨"II", some "4:00"⟩].take 1)) :=
  (C1_schedule_timestamps [⟨"I", none⟩, ⟨"II", some "4:00"⟩] 10000).2.1 1 (by decide) (by decide)

/-- C2: with two `"0:01"` tracks the floored cumulative time (30 then 60)
overtakes the unfloored total (2), so the second timestamp `now - (2 - 30)`
exceeds `now`: the claimed invariant fails even though the sequence is still
strictly increasing. -/
theorem C2_le_now_cex :
    ¬ (List.Chain' (· < ·) (schedule [⟨"A", some "0:01"⟩, ⟨"B", some "0:01"⟩] 1000) ∧
      ∀ x ∈ schedule [⟨"A", some "0:01"⟩, ⟨"B", some "0:01"⟩] 1000, x ≤ 1000) := by
  intro h
  have h1028 := h.2 1028 (by decide)
  omega

/-- C2 (amended): for every non-empty track list the timestamp sequence is
strictly increasing with track order, and every timestamp is ≤ the reference
`now` provided each track's parsed duration is either 0 (defaulted in the
total) or at least the 30-second floor — the condition under which the floored
cumulative time never overtakes the unfloored total. -/
theorem C2_strict_mono_le_now (tracks : List Track) (now : Int) (hne : tracks ≠ []) :
    List.Chain' (· < ·) (schedule tracks now) ∧
    ((∀ t ∈ tracks,
        parseDuration t.duration = 0 ∨ MIN_SCROBBLE_DURATION ≤ parseDuration t.duration) →
      ∀ x ∈ schedule tracks now, x ≤ now) := by
  refine ⟨schedule_chain tracks now, ?_⟩
  intro hdur x hx
  rcases List.mem_iff_get.mp hx with ⟨⟨i, hi⟩, rfl⟩
  have hti : i < tracks.length := by
    have := schedule_length tracks now
    omega
  rw [schedule_get tracks now i hti hi]
  have := cumFloored_take_le_total tracks i hdur
  omega

/-- Witness for C2 on the spec's end-to-end example tracks. -/
theorem C2_strict_mono_le_now_witness :
    List.Chain' (· < ·) (schedule [⟨"I", none⟩, ⟨"II", some "4:00"⟩] 10000) :=
  (C2_strict_mono_le_now [⟨"I", none⟩, ⟨"II", some "4:00"⟩] 10000 (by decide)).1

/-- C3: a single track with an absent duration is scheduled at
`now - 180`, not at `now`; the last timestamp always lags `now` by the last
track's floored duration. -/
theorem C3_last_eq_now_cex :
    schedule [⟨"I", none⟩] 1000 = [820] ∧
    (schedule [⟨"I", none⟩] 1000).getLast? ≠ some 1000 := by
  decide

/-- C3 (amended): for every non-empty track list the last timestamp equals
`now - (total - cumulative-before-last)`; when every track's parsed duration
is at least the 30-second floor this is `now` minus the last track's duration,
which is strictly less than `now` — the last track never lands exactly on
`now`. -/
theorem C3_last_timestamp (tracks : List Track) (now : Int) (hne : tracks ≠ []) :
    (schedule tracks now).getLast? =
      some (now - (totalDuration tracks - cumFloored tracks.dropLast)) ∧
    ((∀ t ∈ tracks, MIN_SCROBBLE_DURATION ≤ parseDuration t.duration) →
      (schedule tracks now).getLast? = some (now - flooredDuration (tracks.getLast hne)) ∧
        now - flooredDuration (tracks.getLast hne) < now) := by
  have hlen := schedule_length tracks now
  have hpos : 0 < tracks.length := List.length_pos.mpr hne
  have hsne : schedule tracks now ≠ [] := by
    intro hc
    rw [hc] at hlen
    simp at hlen
    omega
  have hti : (schedule tracks now).length - 1 < tracks.length := by omega
  have hts : (schedule tracks now).length - 1 < (schedule tracks now).length := by omega
  have hmain : (schedule tracks now).getLast? =
      some (now - (totalDuration tracks - cumFloored tracks.dropLast)) := by
    rw [List.getLast?_eq_getLast_of_ne_nil hsne, List.getLast_eq_get,
      schedule_get tracks now _ hti hts, hlen, List.dropLast_eq_take]
  refine ⟨hmain, ?_⟩
  intro hstrong
  have htot : totalDuration tracks = cumFloored tracks := totalDuration_eq_cumFloored tracks hstrong
  have hsplit : tracks.dropLast ++ [tracks.getLast hne] = tracks :=
    List.dropLast_append_getLast hne
  have hcum : cumFloored tracks = cumFloored tracks.dropLast + flooredDuration (tracks.getLast hne) := by
    conv_lhs => rw [← hsplit]
    rw [cumFloored_append]
    simp [cumFloored]
  have hmin := min_le_flooredDuration (tracks.getLast hne)
  simp only [MIN_SCROBBLE_DURATION] at hmin
  constructor
  · rw [hmain, htot, hcum]
    congr 1
    ring
  · omega

/-- Witness for C3: the spec's end-to-end example tracks at `now = 10000`. -/
theorem C3_last_timestamp_witness :
    (schedule [⟨"I", none⟩, ⟨"II", some "4:00"⟩] 10000).getLast? =
      some (10000 - (totalDuration [⟨"I", none⟩, ⟨"II", some "4:00"⟩] -
        cumFloored ([(⟨"I", none⟩ : Track), ⟨"II", some "4:00"⟩].dropLast))) :=
  (C3_last_timestamp [⟨"I", none⟩, ⟨"II", some "4:00"⟩] 10000 (by decide)).1

lemma decDigits?_ne_nil {l : List Char} {m : Nat} (h : decDigits? l = some m) : l ≠ [] := by
  intro hc
  subst hc
  simp [decDigits?] at h

lemma decDigits?_all_digits {l : List Char} {m : Nat} (h : decDigits? l = some m) :
    l.all Char.isDigit := by
  unfold decDigits? at h
  split at h
  case isTrue hc => exact hc.2
  case isFalse hc => cases h

lemma jsToNumber_of_decDigits {a : String} {m : Nat} (h : decDigits? a.toList = some m) :
    jsToNumber a = some (m : Int) := by
  have hall := decDigits?_all_digits h
  have hne := decDigits?_ne_nil h
  rcases hl : a.toList with _ | ⟨c, rest⟩
  · exact absurd hl hne
  · have hcd : c.isDigit := by
      rw [hl, List.all_cons, Bool.and_eq_true] at hall
      exact hall.1
    have hc : c ≠ '-' := by
      intro hceq
      rw [hceq] at hcd
      exact absurd hcd (by decide)
    rw [hl] at h
    have hd : a.data = c :: rest := hl
    simp [jsToNumber, hd, if_neg hc, h]

/-- Claim C4 as stated includes the single-segment `SS` shape, but a lone
numeric segment falls through to the 180-second default: `parse("45")` is 180,
not 45. -/
theorem C4_ss_shape_cex :
    parseDuration (some "45") = 180 ∧ (180 : Int) ≠ 45 := by
  decide

/-- C4 (amended): for duration strings of shape `MM:SS` or `HH:MM:SS` with
numeric segments, `parseDuration` returns the weighted sum of the segments
(weights 1, 60, 3600 from the right); a single-segment `SS` string instead
yields the 180-second default. `parse("07:42") = 462` and
`parse("1:02:03") = 3723`. -/
theorem C4_weighted_sum (s : String) :
    (∀ (a b : String) (ma mb : Nat),
      jsSplit s ':' = [a, b] →
      decDigits? a.toList = some ma → decDigits? b.toList = some mb →
      parseDuration (some s) = 60 * (ma : Int) + (mb : Int)) ∧
    (∀ (a b c : String) (ma mb mc : Nat),
      jsSplit s ':' = [a, b, c] →
      decDigits? a.toList = some ma → decDigits? b.toList = some mb →
      decDigits? c.toList = some mc →
      parseDuration (some s) = 3600 * (ma : Int) + 60 * (mb : Int) + (mc : Int)) ∧
    parseDuration (some "07:42") = 462 ∧ parseDuration (some "1:02:03") = 3723 := by
  refine ⟨?_, ?_, by decide, by decide⟩
  · intro a b ma mb hsplit ha hb
    have hs : s ≠ "" := by
      intro hc
      subst hc
      rw [show jsSplit "" ':' = [""] from rfl] at hsplit
      simp at hsplit
    have hsval : (jsSplit s ':').filterMap jsToNumber = [(ma : Int), (mb : Int)] := by
      rw [hsplit]
      simp [List.filterMap_cons, jsToNumber_of_decDigits ha, jsToNumber_of_decDigits hb]
    simp only [parseDuration, if_neg hs, hsval]
    ring
  · intro a b c ma mb mc hsplit ha hb hc
    have hs : s ≠ "" := by
      intro hceq
      subst hceq
      rw [show jsSplit "" ':' = [""] from rfl] at hsplit
      simp at hsplit
    have hsval : (jsSplit s ':').filterMap jsToNumber = [(ma : Int), (mb : Int), (mc : Int)] := by
      rw [hsplit]
      simp [List.filterMap_cons, jsToNumber_of_decDigits ha, jsToNumber_of_decDigits hb,
        jsToNumber_of_decDigits hc]
    simp only [parseDuration, if_neg hs, hsval]
    ring

/-- Witness for C4 at the concrete `MM:SS` input `"04:05"`. -/
theorem C4_weighted_sum_witness :
    parseDuration (some "04:05") = 60 * ((4 : Nat) : Int) + ((5 : Nat) : Int) :=
  (C4_weighted_sum "04:05").1 "04" "05" 4 5 (by decide) (by decide) (by decide)

/-- Claim C5 says a single unparsable segment forces the 180-second default,
but `parseDuration` filters failing segments out: `"1:x:02:03"` has the bad
segment `"x"`, yet parses to 3723 because the three surviving numeric segments
are treated as `HH:MM:SS`. -/
theorem C5_bad_segment_cex :
    parseDuration (some "1:x:02:03") = 3723 ∧ (3723 : Int) ≠ 180 ∧
    (∃ seg ∈ jsSplit "1:x:02:03" ':', jsToNumber seg = none) := by
  decide

/-- C5 (amended): segments that fail to parse are dropped rather than
invalidating the field; whenever the surviving numeric segments number exactly
two or exactly three, `parseDuration` returns their weighted sum even though
some segment of the input failed to parse. The default is returned only when
the surviving segments do not number exactly two or three. -/
theorem C5_bad_segment_dropped :
    (∀ (s : String) (a b : Int),
      (jsSplit s ':').filterMap jsToNumber = [a, b] →
      (∃ seg ∈ jsSplit s ':', jsToNumber seg = none) →
      parseDuration (some s) = a * 60 + b) ∧
    (∀ (s : String) (a b c : Int),
      (jsSplit s ':').filterMap jsToNumber = [a, b, c] →
      (∃ seg ∈ jsSplit s ':', jsToNumber seg = none) →
      parseDuration (some s) = a * 3600 + b * 60 + c) := by
  constructor
  · intro s a b hsegs hbad
    have hs : s ≠ "" := by
      intro hc
      subst hc
      rcases hbad with ⟨seg, hmem, hnone⟩
      rw [show jsSplit "" ':' = [""] from rfl] at hmem
      simp at hmem
      subst hmem
      exact absurd hnone (by decide)
    simp only [parseDuration, if_neg hs, hsegs]
  · intro s a b c hsegs hbad
    have hs : s ≠ "" := by
      intro hc
      subst hc
      rcases hbad with ⟨seg, hmem, hnone⟩
      rw [show jsSplit "" ':' = [""] from rfl] at hmem
      simp at hmem
      subst hmem
      exact absurd hnone (by decide)
    simp only [parseDuration, if_neg hs, hsegs]

/-- Witness for C5 at `"1:x:02:03"`: the bad middle segment is dropped and the
remaining three segments parse as `HH:MM:SS`. -/
theorem C5_bad_segment_dropped_witness :
    parseDuration (some "1:x:02:03") = 1 * 3600 + 2 * 60 + 3 :=
  C5_bad_segment_dropped.2 "1:x:02:03" 1 2 3 (by decide) (by decide)

/-- C6 (confirmed): an absent duration and unparsable text such as
`"garbage"` both yield the fixed 180-second default. -/
theorem C6_default_on_absent_or_garbage :
    parseDuration none = 180 ∧ parseDuration (some "garbage") = 180 := by
  decide

lemma scrobbleAux_events_submitted :
    ∀ (l : List Track) (net : Nat → Bool) (now total : Int) (i : Nat) (cum : Int)
      (j : Nat), j < l.length →
      ∃ tstamp dur,
        ScrobbleEvent.submitted (i + j) tstamp dur ∈ (scrobbleAux net false now total i cum l).2 := by
  intro l
  induction l with
  | nil =>
    intro net now total i cum j hj
    exact absurd hj (by simp)
  | cons t ts ih =>
    intro net now total i cum j hj
    cases j with
    | zero =>
      refine ⟨now - (total - cum), max (parseDuration t.duration) MIN_SCROBBLE_DURATION, ?_⟩
      cases hn : net i <;> simp [scrobbleAux, hn]
    | succ j' =>
      have hj' : j' < ts.length := by simpa using hj
      obtain ⟨tstamp, dur, hmem⟩ := ih net now total (i + 1)
        (cum + max (parseDuration t.duration) MIN_SCROBBLE_DURATION) j' hj'
      refine ⟨tstamp, dur, ?_⟩
      have hidx : i + (j' + 1) = (i + 1) + j' := by omega
      rw [hidx]
      cases hn : net i <;> simp [scrobbleAux, hn, hmem]

lemma scrobbleAux_events_failed :
    ∀ (l : List Track) (net : Nat → Bool) (now total : Int) (i : Nat) (cum : Int)
      (j : Nat) (hj : j < l.length), net (i + j) = false →
      ScrobbleEvent.failed (i + j) (l.get ⟨j, hj⟩).title ∈
        (scrobbleAux net false now total i cum l).2 := by
  intro l
  induction l with
  | nil =>
    intro net now total i cum j hj
    exact absurd hj (by simp)
  | cons t ts ih =>
    intro net now total i cum j hj hfail
    cases j with
    | zero =>
      have hn : net i = false := by simpa using hfail
      simp [scrobbleAux, hn]
    | succ j' =>
      have hj' : j' < ts.length := by simpa using hj
      have hidx : i + (j' + 1) = (i + 1) + j' := by omega
      have hfail' : net ((i + 1) + j') = false := by rw [← hidx]; exact hfail
      have hmem := ih net now total (i + 1)
        (cum + max (parseDuration t.duration) MIN_SCROBBLE_DURATION) j' hj' hfail'
      rw [hidx]
      simp only [List.get_eq_getElem] at hmem
      cases hn : net i <;> simp [scrobbleAux, hn, hmem]

lemma scrobbleAux_dry_events (net : Nat → Bool) (now total : Int) :
    ∀ (l : List Track) (i : Nat) (cum : Int),
      (scrobbleAux net true now total i cum l).2 = [] := by
  intro l
  induction l with
  | nil => intro i cum; simp [scrobbleAux]
  | cons t ts ih => intro i cum; simp [scrobbleAux, ih]

/-- C8 (confirmed): in the guarded orchestrator loop, a failed network
submission for track `i` is reported as a failure event carrying that track's
title, while every track of the list — before and after the failing one — is
still submitted, and the loop processes the whole list. -/
theorem C8_failed_track_continues (tracks : List Track) (net : Nat → Bool) (now : Int)
    (i : Nat) (hi : i < tracks.length) (hfail : net i = false) :
    ScrobbleEvent.failed i (tracks.get ⟨i, hi⟩).title ∈ (scrobbleRun net false tracks now).2 ∧
    (∀ j, j < tracks.length →
      ∃ tstamp dur, ScrobbleEvent.submitted j tstamp dur ∈ (scrobbleRun net false tracks now).2) ∧
    (scrobbleRun net false tracks now).1.length = tracks.length := by
  refine ⟨?_, ?_, ?_⟩
  · have h := scrobbleAux_events_failed tracks net now (totalDuration tracks) 0 0 i hi
      (by simpa using hfail)
    simpa [scrobbleRun] using h
  · intro j hj
    have h := scrobbleAux_events_submitted tracks net now (totalDuration tracks) 0 0 j hj
    simpa [scrobbleRun] using h
  · rw [scrobbleRun, scrobbleAux_fst, schedPairs_length]

/-- Witness for C8: three tracks with the network failing exactly on track 2
(index 1); the failure event for `"two"` is recorded. -/
theorem C8_failed_track_continues_witness :
    ScrobbleEvent.failed 1
        (([⟨"one", some "3:00"⟩, ⟨"two", some "3:00"⟩, ⟨"three", some "3:00"⟩] :
          List Track).get ⟨1, by decide⟩).title ∈
      (scrobbleRun (fun j => j != 1) false
        [⟨"one", some "3:00"⟩, ⟨"two", some "3:00"⟩, ⟨"three", some "3:00"⟩] 10000).2 :=
  (C8_failed_track_continues
    [⟨"one", some "3:00"⟩, ⟨"two", some "3:00"⟩, ⟨"three", some "3:00"⟩]
    (fun j => j != 1) 10000 1 (by decide) (by decide)).1

/-- C9 (confirmed): a dry run computes exactly the same per-track
`(duration, timestamp)` pairs as a live run with any network behavior, and
emits no events at all — in particular no submission attempt. -/
theorem C9_dry_run_equiv (tracks : List Track) (now : Int) (net netLive : Nat → Bool) :
    (scrobbleRun net true tracks now).1 = (scrobbleRun netLive false tracks now).1 ∧
    (scrobbleRun net true tracks now).2 = [] := by
  constructor
  · rw [scrobbleRun, scrobbleRun, scrobbleAux_fst, scrobbleAux_fst]
  · rw [scrobbleRun, scrobbleAux_dry_events]

/-- NaN-propagating addition of JavaScript numbers. -/
def nanAdd (a b : Option Int) : Option Int :=
  match a, b with
  | some x, some y => some (x + y)
  | _, _ => none

/-- Translation of the timestamp computation of the `scrobble` loop in
`src/unnamed/part_000` (lines 101-127): each track's `timestamp = now -
cumulativeTime` and `cumulativeTime += duration` runs afterwards, with no
30-second floor; a `NaN` duration poisons the cumulative time, modelled by
`Option`. -/
def scrobbleV0Aux (now : Int) : Option Int → List Track → List (Option Int)
  | _, [] => []
  | cum, t :: ts =>
    cum.map (fun c => now - c) ::
      scrobbleV0Aux now (nanAdd cum (parseDurationV0 t.duration)) ts

/-- Timestamp sequence of the `part_000` variant: the loop starts with
`cumulativeTime = 0`, so the first track is anchored at `now`. -/
def scheduleV0 (tracks : List Track) (now : Int) : List (Option Int) :=
  scrobbleV0Aux now (some 0) tracks

/-- Running `cumulativeTime` of the `part_000` variant after a list of tracks,
starting from `c`. -/
def cumV0From (c : Option Int) (l : List Track) : Option Int :=
  l.foldl (fun acc t => nanAdd acc (parseDurationV0 t.duration)) c

lemma scrobbleV0Aux_length (now : Int) :
    ∀ (l : List Track) (c : Option Int), (scrobbleV0Aux now c l).length = l.length := by
  intro l
  induction l with
  | nil => intro c; simp [scrobbleV0Aux]
  | cons t ts ih => intro c; simp [scrobbleV0Aux, ih]

lemma scrobbleV0Aux_get (now : Int) :
    ∀ (l : List Track) (c : Option Int) (i : Nat) (h : i < l.length)
      (h2 : i < (scrobbleV0Aux now c l).length),
      (scrobbleV0Aux now c l).get ⟨i, h2⟩ = (cumV0From c (l.take i)).map (fun x => now - x) := by
  intro l
  induction l with
  | nil => intro c i h; exact absurd h (by simp)
  | cons t ts ih =>
    intro c i h h2
    cases i with
    | zero => simp [scrobbleV0Aux, cumV0From]
    | succ j =>
      have hj : j < ts.length := by simpa using h
      have hj2 : j < (scrobbleV0Aux now (nanAdd c (parseDurationV0 t.duration)) ts).length := by
        rw [scrobbleV0Aux_length]; exact hj
      simp only [scrobbleV0Aux, List.get_cons_succ, List.take_succ_cons,
        ih (nanAdd c (parseDurationV0 t.duration)) j hj hj2]
      simp [cumV0From]

lemma scrobbleV0Aux_pos_decreasing (now : Int) :
    ∀ (l : List Track) (c : Int),
      (∀ t ∈ l, ∃ d, parseDurationV0 t.duration = some d ∧ 0 < d) →
      ∃ ns : List Int, scrobbleV0Aux now (some c) l = ns.map some ∧
        List.Chain' (fun a b => b < a) ns ∧ ∀ n ∈ ns, n ≤ now - c := by
  intro l
  induction l with
  | nil =>
    intro c _
    exact ⟨[], by simp [scrobbleV0Aux], by simp, by simp⟩
  | cons t ts ih =>
    intro c hpos
    obtain ⟨d, hd, hdpos⟩ := hpos t (by simp)
    obtain ⟨ns, hmap, hchain, hbound⟩ := ih (c + d) (fun u hu => hpos u (by simp [hu]))
    refine ⟨(now - c) :: ns, ?_, ?_, ?_⟩
    · simp [scrobbleV0Aux, hd, nanAdd, hmap]
    · rw [List.chain'_cons']
      refine ⟨?_, hchain⟩
      intro b hb
      have hmem := List.mem_of_mem_head? hb
      have := hbound b hmem
      omega
    · intro n hn
      rcases List.mem_cons.mp hn with rfl | hn'
      · omega
      · have := hbound n hn'
        omega

/-- C10 claims the `part_000` timestamps strictly decrease with track order,
but two zero-duration tracks (`"0:00"`) receive the identical timestamp
`now`: the sequence is not strictly decreasing. -/
theorem C10_zero_duration_cex :
    scheduleV0 [⟨"A", some "0:00"⟩, ⟨"B", some "0:00"⟩] 1000 = [some 1000, some 1000] ∧
    ¬ (∃ ns : List Int,
        scheduleV0 [⟨"A", some "0:00"⟩, ⟨"B", some "0:00"⟩] 1000 = ns.map some ∧
        List.Chain' (fun a b => b < a) ns) := by
  refine ⟨by decide, ?_⟩
  rintro ⟨ns, hmap, hchain⟩
  have he : scheduleV0 [⟨"A", some "0:00"⟩, ⟨"B", some "0:00"⟩] 1000 =
      [some (1000 : Int), some 1000] := by decide
  rw [he] at hmap
  rcases ns with _ | ⟨x, _ | ⟨y, _ | _⟩⟩ <;> simp at hmap
  obtain ⟨rfl, rfl⟩ := hmap
  rw [List.chain'_cons] at hchain
  omega

/-- C10 (amended): in the `part_000` variant each track's timestamp is `now`
minus the (NaN-propagating) cumulative duration of the preceding tracks, so a
non-empty list's first track receives exactly `now`, and the timestamps
strictly decrease with track order provided every track's parsed duration is
positive (no floor is applied in this variant, so zero or negative durations
break strictness); for some non-empty track list this sequence differs from
the last-track-anchored `schedule`. -/
theorem C10_variants_not_equivalent :
    (∀ (tracks : List Track) (now : Int) (i : Nat) (h : i < tracks.length)
      (h2 : i < (scheduleV0 tracks now).length),
      (scheduleV0 tracks now).get ⟨i, h2⟩ =
        (cumV0From (some 0) (tracks.take i)).map (fun x => now - x)) ∧
    (∀ (tracks : List Track) (now : Int), tracks ≠ [] →
      (scheduleV0 tracks now).head? = some (some now)) ∧
    (∀ (tracks : List Track) (now : Int),
      (∀ t ∈ tracks, ∃ d, parseDurationV0 t.duration = some d ∧ 0 < d) →
      ∃ ns : List Int, scheduleV0 tracks now = ns.map some ∧
        List.Chain' (fun a b => b < a) ns) ∧
    (∃ (tracks : List Track) (now : Int), tracks ≠ [] ∧
      scheduleV0 tracks now ≠ (schedule tracks now).map some) := by
  refine ⟨?_, ?_, ?_, ?_⟩
  · intro tracks now i h h2
    exact scrobbleV0Aux_get now tracks (some 0) i h h2
  · intro tracks now hne
    cases tracks with
    | nil => exact absurd rfl hne
    | cons t ts => simp [scheduleV0, scrobbleV0Aux]
  · intro tracks now hpos
    obtain ⟨ns, hmap, hchain, _⟩ := scrobbleV0Aux_pos_decreasing now tracks 0 hpos
    exact ⟨ns, hmap, hchain⟩
  · exact ⟨[⟨"I", none⟩], 1000, by decide, by decide⟩

/-- Witness for C10: a single track with an absent duration is anchored at
`now = 1000` by the `part_000` variant. -/
theorem C10_variants_not_equivalent_witness :
    (scheduleV0 [⟨"I", none⟩] 1000).head? = some (some 1000) :=
  C10_variants_not_equivalent.2.1 [⟨"I", none⟩] 1000 (by decide)

/-- Little-endian byte decomposition of `n` into exactly `k` bytes (higher
bytes truncated). -/
def leBytes : Nat → Nat → List Nat
  | 0, _ => []
  | k + 1, n => (n % 256) :: leBytes k (n / 256)

/-- Addition modulo `2^32`. -/
def add32 (a b : Nat) : Nat := (a + b) % 4294967296

/-- Left rotation of a 32-bit value. -/
def rotl32 (x s : Nat) : Nat := ((x <<< s) ||| (x >>> (32 - s))) % 4294967296

/-- MD5 auxiliary function F (rounds 0-15). -/
def md5F (b c d : Nat) : Nat := (b &&& c) ||| ((4294967295 ^^^ b) &&& d)

/-- MD5 auxiliary function G (rounds 16-31). -/
def md5G (b c d : Nat) : Nat := (d &&& b) ||| ((4294967295 ^^^ d) &&& c)

/-- MD5 auxiliary function H (rounds 32-47). -/
def md5H (b c d : Nat) : Nat := b ^^^ c ^^^ d

/-- MD5 auxiliary function I (rounds 48-63). -/
def md5I (b c d : Nat) : Nat := c ^^^ (b ||| (4294967295 ^^^ d))

/-- MD5 per-round shift amounts. -/
def md5S : List Nat :=
  [7, 12, 17, 22, 7, 12, 17, 22, 7, 12, 17, 22, 7, 12, 17, 22,
   5, 9, 14, 20, 5, 9, 14, 20, 5, 9, 14, 20, 5, 9, 14, 20,
   4, 11, 16, 23, 4, 11, 16, 23, 4, 11, 16, 23, 4, 11, 16, 23,
   6, 10, 15, 21, 6, 10, 15, 21, 6, 10, 15, 21, 6, 10, 15, 21]

/-- MD5 sine-derived round constants. -/
def md5K : List Nat :=
  [3614090360, 3905402710, 606105819, 3250441966,
   4118548399, 1200080426, 2821735955, 4249261313,
   1770035416, 2336552879, 4294925233, 2304563134,
   1804603682, 4254626195, 2792965006, 1236535329,
   4129170786, 3225465664, 643717713, 3921069994,
   3593408605, 38016083, 3634488961, 3889429448,
   568446438, 3275163606, 4107603335, 1163531501,
   2850285829, 4243563512, 1735328473, 2368359562,
   4294588738, 2272392833, 1839030562, 4259657740,
   2763975236, 1272893353, 4139469664, 3200236656,
   681279174, 3936430074, 3572445317, 76029189,
   3654602809, 3873151461, 530742520, 3299628645,
   4096336452, 1126891415, 2878612391, 4237533241,
   1700485571, 2399980690, 4293915773, 2240044497,
   1873313359, 4264355552, 2734768916, 1309151649,
   4149444226, 3174756917, 718787259, 3951481745]

/-- The 32-bit message words of a 64-byte chunk, little-endian. -/
def chunkWord (chunk : List Nat) (g : Nat) : Nat :=
  chunk.getD (4 * g) 0 + 256 * chunk.getD (4 * g + 1) 0 +
    65536 * chunk.getD (4 * g + 2) 0 + 16777216 * chunk.getD (4 * g + 3) 0

/-- One MD5 round on state `(a, b, c, d)` with message words `m`. -/
def md5Round (m : Nat → Nat) (st : Nat × Nat × Nat × Nat) (i : Nat) : Nat × Nat × Nat × Nat :=
  let a := st.1
  let b := st.2.1
  let c := st.2.2.1
  let d := st.2.2.2
  let f := if i < 16 then md5F b c d
    else if i < 32 then md5G b c d
    else if i < 48 then md5H b c d
    else md5I b c d
  let g := if i < 16 then i
    else if i < 32 then (5 * i + 1) % 16
    else if i < 48 then (3 * i + 5) % 16
    else (7 * i) % 16
  (d, add32 b (rotl32 (add32 (add32 (add32 a f) (md5K.getD i 0)) (m g)) (md5S.getD i 0)), b, c)

/-- Process one 64-byte chunk: 64 rounds, then add the chunk result into the
running state. -/
def md5ProcessChunk (st : Nat × Nat × Nat × Nat) (chunk : List Nat) : Nat × Nat × Nat × Nat :=
  let r := (List.range 64).foldl (md5Round (chunkWord chunk)) st
  (add32 st.1 r.1, add32 st.2.1 r.2.1, add32 st.2.2.1 r.2.2.1, add32 st.2.2.2 r.2.2.2)

/-- MD5 padding: a `0x80` byte, then zeros until the length is 56 mod 64, then
the bit length as eight little-endian bytes. The zero count `z` is the unique
value in `0..63` with `len + 1 + z ≡ 56 (mod 64)`, i.e. `z ≡ 119 - len
(mod 64)`; since `len % 64 ≤ 63 < 119` the subtraction never truncates. -/
def md5Pad (msg : List Nat) : List Nat :=
  msg ++ [128] ++ List.replicate ((119 - msg.length % 64) % 64) 0 ++
    leBytes 8 (8 * msg.length)

/-- Split a byte list into 64-byte chunks; the fuel argument makes the
recursion structural. -/
def md5Chunks : Nat → List Nat → List (List Nat)
  | 0, _ => []
  | fuel + 1, l => if l = [] then [] else l.take 64 :: md5Chunks fuel (l.drop 64)

/-- The 16-byte MD5 digest of a byte message. -/
def md5Digest (msg : List Nat) : List Nat :=
  let padded := md5Pad msg
  let r := (md5Chunks padded.length padded).foldl md5ProcessChunk
    (1732584193, 4023233417, 2562383102, 271733878)
  leBytes 4 r.1 ++ leBytes 4 r.2.1 ++ leBytes 4 r.2.2.1 ++ leBytes 4 r.2.2.2

/-- Lowercase hexadecimal digit for a value below 16. -/
def hexChar (n : Nat) : Char :=
  if n = 0 then '0' else if n = 1 then '1' else if n = 2 then '2' else if n = 3 then '3'
  else if n = 4 then '4' else if n = 5 then '5' else if n = 6 then '6' else if n = 7 then '7'
  else if n = 8 then '8' else if n = 9 then '9' else if n = 10 then 'a' else if n = 11 then 'b'
  else if n = 12 then 'c' else if n = 13 then 'd' else if n = 14 then 'e' else 'f'

/-- Two lowercase hex digits of a byte. -/
def byteHex (b : Nat) : String := String.mk [hexChar (b / 16), hexChar (b % 16)]

/-- UTF-8 encoding of one character. -/
def utf8EncodeChar (c : Char) : List Nat :=
  let n := c.toNat
  if n < 128 then [n]
  else if n < 2048 then [192 + n / 64, 128 + n % 64]
  else if n < 65536 then [224 + n / 4096, 128 + (n / 64) % 64, 128 + n % 64]
  else [240 + n / 262144, 128 + (n / 4096) % 64, 128 + (n / 64) % 64, 128 + n % 64]

/-- UTF-8 bytes of a string. -/
def utf8Bytes (s : String) : List Nat := (s.toList.map utf8EncodeChar).join

/-- Node's `crypto.createHash('md5').update(s).digest('hex')`: the lowercase
hexadecimal MD5 digest of the UTF-8 bytes of `s`. -/
def md5Hex (s : String) : String := String.join ((md5Digest (utf8Bytes s)).map byteHex)

/-- Translation of `generateSignature` (`src/last-fm.auth.js` lines 94-102):
the parameter names are sorted, each name is concatenated directly with its
value into `sig`, the shared secret is appended, and the MD5 hex digest of the
result is returned. The JavaScript object is modelled as an association list
whose keys a caller keeps distinct. -/
def generateSignature (params : List (String × String)) (secret : String) : String :=
  let sortedKeys := List.insertionSort (· ≤ ·) (params.map Prod.fst)
  let sig := sortedKeys.foldl (fun sig key => sig ++ key ++ ((params.lookup key).getD "")) ""
  md5Hex (sig ++ secret)

lemma lookup_eq_of_perm {p q : List (String × String)} (hperm : p.Perm q) :
    (p.map Prod.fst).Nodup → ∀ k : String, p.lookup k = q.lookup k := by
  induction hperm with
  | nil => intro _ k; rfl
  | cons x h ih =>
    intro hnd k
    obtain ⟨xk, xv⟩ := x
    rw [List.map_cons, List.nodup_cons] at hnd
    cases hkx : k == xk <;> simp [List.lookup, hkx, ih hnd.2 k]
  | swap x y l =>
    intro hnd k
    obtain ⟨xk, xv⟩ := x
    obtain ⟨yk, yv⟩ := y
    rw [List.map_cons, List.map_cons, List.nodup_cons] at hnd
    have hne : yk ≠ xk := by
      intro he
      exact hnd.1 (by rw [he]; exact List.mem_cons_self _ _)
    cases hky : k == yk <;> cases hkx : k == xk
    · simp [List.lookup, hky, hkx]
    · simp [List.lookup, hky, hkx]
    · simp [List.lookup, hky, hkx]
    · exact absurd ((eq_of_beq hky).symm.trans (eq_of_beq hkx)) hne
  | trans h12 h23 ih12 ih23 =>
    intro hnd k
    have hnd2 := (h12.map Prod.fst).nodup_iff.mp hnd
    exact (ih12 hnd k).trans (ih23 hnd2 k)

lemma foldl_append_from (f : String → String) :
    ∀ (ks : List String) (acc : String),
      ks.foldl (fun sig k => sig ++ f k) acc = acc ++ ks.foldl (fun sig k => sig ++ f k) "" := by
  intro ks
  induction ks with
  | nil => intro acc; simp
  | cons k ks ih =>
    intro acc
    rw [List.foldl_cons, List.foldl_cons, ih (acc ++ f k), ih ("" ++ f k),
      String.empty_append, String.append_assoc]

lemma join_map_eq_foldl (f : String → String) (ks : List String) :
    String.join (ks.map f) = ks.foldl (fun sig k => sig ++ f k) "" := by
  have h : String.join (ks.map f) = (ks.map f).foldl (· ++ ·) "" := rfl
  rw [h, List.foldl_map]

/-- C7 (confirmed): `generateSignature` sorts the parameter names, and its
digest input is exactly the sorted names each followed directly by its value,
with the shared secret appended, hashed with lowercase-hex MD5; moreover the
signature depends only on the parameter mapping — any reordering of an
association list with distinct keys yields the identical digest. -/
theorem C7_sign_canonical_md5 (params : List (String × String)) (secret : String) :
    (List.insertionSort (· ≤ ·) (params.map Prod.fst)).Perm (params.map Prod.fst) ∧
    List.Sorted (· ≤ ·) (List.insertionSort (· ≤ ·) (params.map Prod.fst)) ∧
    generateSignature params secret =
      md5Hex (String.join ((List.insertionSort (· ≤ ·) (params.map Prod.fst)).map
        (fun k => k ++ ((params.lookup k).getD ""))) ++ secret) ∧
    (∀ params2 : List (String × String), params.Perm params2 →
      (params.map Prod.fst).Nodup →
      generateSignature params secret = generateSignature params2 secret) := by
  refine ⟨List.perm_insertionSort _ _, List.sorted_insertionSort _ _, ?_, ?_⟩
  · simp only [generateSignature]
    congr 1
    congr 1
    rw [join_map_eq_foldl]
    have hfun : (fun (sig key : String) => sig ++ key ++ ((params.lookup key).getD "")) =
        (fun sig key => sig ++ (key ++ ((params.lookup key).getD ""))) := by
      funext sig key
      rw [String.append_assoc]
    rw [hfun]
  · intro params2 hperm hnd
    have hkeys : List.insertionSort (· ≤ ·) (params.map Prod.fst) =
        List.insertionSort (· ≤ ·) (params2.map Prod.fst) := by
      exact List.eq_of_perm_of_sorted
        ((List.perm_insertionSort _ _).trans
          ((hperm.map Prod.fst).trans (List.perm_insertionSort _ _).symm))
        (List.sorted_insertionSort _ _) (List.sorted_insertionSort _ _)
    have hfun : (fun (sig key : String) => sig ++ key ++ ((params.lookup key).getD "")) =
        (fun sig key => sig ++ key ++ ((params2.lookup key).getD "")) := by
      funext sig key
      rw [lookup_eq_of_perm hperm hnd key]
    simp only [generateSignature]
    rw [← hkeys, hfun]

/-- Witness for C7: swapping the two entries of a two-parameter mapping leaves
the signature unchanged. -/
theorem C7_sign_canonical_md5_witness :
    generateSignature [("b", "2"), ("a", "1")] "sec" =
      generateSignature [("a", "1"), ("b", "2")] "sec" :=
  (C7_sign_canonical_md5 [("b", "2"), ("a", "1")] "sec").2.2.2 [("a", "1"), ("b", "2")]
    (List.Perm.swap _ _ _) (by decide)

end VinylScrobbler

